import Mathlib

set_option autoImplicit false

/-!
Shallow embedding of `scapy/sendrecv.py` (send/receive coordination engine):
the sender routine `SndRcvHandler._sndrcv_snd`, the reply dispatcher
`SndRcvHandler._process_packet`, the retry loop of `SndRcvHandler.__init__`,
the sniffer main loop `AsyncSniffer._run`, `AsyncSniffer.stop`, the flood
generator `_FloodGenerator.__iter__`, the send engine `__gen_send`, the
replay-tool output parser `_parse_tcpreplay_result` and the bridge hook
`prn_send` of `bridge_and_sniff`.

Packets are opaque values carrying an identity and a `hashret` fingerprint;
the `answers` relation is a parameter.  Python dictionaries keyed by the
`hashret` bytes are modelled as association lists (insertion ordered, first
occurrence wins, like a dict); mutation is explicit state passing.  Real
I/O (socket send/recv, select readiness, timeouts) is driven by explicit
schedules: a run is a function of the data the I/O layer would deliver.
-/

namespace SendRecv

/-- A packet: an identity (Python object identity) and the `hashret()`
fingerprint bytes. -/
structure Pkt where
  pid : Nat
  hr : List Nat
  deriving DecidableEq, Repr

/-- Lookup in an insertion-ordered association table (Python `d[k]` /
`k in d`): first entry with the given key. -/
def lookupAssoc {β : Type} : List (List Nat × β) → List Nat → Option β
  | [], _ => none
  | (k, b) :: rest, h => if k = h then some b else lookupAssoc rest h

/-- Write-back of a bucket into the table (the Python code mutates the
bucket list object held by the dict in place; here the updated bucket
replaces the first entry with that key). -/
def setAssoc {β : Type} : List (List Nat × β) → List Nat → β → List (List Nat × β)
  | [], h, v => [(h, v)]
  | (k, b) :: rest, h, v =>
      if k = h then (k, v) :: rest else (k, b) :: setAssoc rest h v

/-- `self.hsent.setdefault(p.hashret(), []).append(p)` from
`SndRcvHandler._sndrcv_snd` (src/scapy/sendrecv.py:273): if the key is
absent a fresh bucket is created at the end of the dict, then the packet
is appended to the bucket. -/
def bucketAppend : List (List Nat × List Pkt) → List Nat → Pkt → List (List Nat × List Pkt)
  | [], h, p => [(h, [p])]
  | (k, b) :: rest, h, p =>
      if k = h then (k, b ++ [p]) :: rest else (k, b) :: bucketAppend rest h p

/-! ### C1: the sender routine `_sndrcv_snd` (src/scapy/sendrecv.py:261-306)

The loop body for each packet `p` of `self.tobesent` is, in order:
append `p` to `hsent[p.hashret()]`, then `self.pks.send(p)`, then sleep,
then break out if the breakout event is set.  We record the loop as an
event trace (table insertions and socket send calls) so that the ordering
claim is a statement about trace positions, and fold the insertions into
the `hsent` state to state table membership at each send. -/

/-- One observable event of the sender loop: a table insertion or a
socket send call. -/
inductive SndEvent where
  | insert (p : Pkt)
  | send (p : Pkt)
  deriving DecidableEq, Repr

/-- Event trace of the `for p in self.tobesent` loop of `_sndrcv_snd`:
for each packet, the table insertion strictly precedes the send call;
after the send, the breakout event (`brk i`, indexed by the loop counter
`i`) may end the loop early. -/
def sndTrace (brk : Nat → Bool) : List Pkt → Nat → List SndEvent
  | [], _ => []
  | p :: ps, i =>
      SndEvent.insert p :: SndEvent.send p ::
        (if brk i then [] else sndTrace brk ps (i + 1))

/-- Effect of one sender event on the `hsent` table: insertions append to
the fingerprint bucket, send calls leave the table unchanged. -/
def hsentStep (t : List (List Nat × List Pkt)) : SndEvent → List (List Nat × List Pkt)
  | SndEvent.insert p => bucketAppend t p.hr p
  | SndEvent.send _ => t

/-- The `hsent` table after a prefix of the sender trace, starting from
table `t` (fresh runs start from the empty table). -/
def hsentAfter (t : List (List Nat × List Pkt)) (es : List SndEvent) :
    List (List Nat × List Pkt) :=
  es.foldl hsentStep t

theorem lookup_bucketAppend_self (t : List (List Nat × List Pkt)) (h : List Nat) (p : Pkt) :
    ∃ b, lookupAssoc (bucketAppend t h p) h = some (b ++ [p]) := by
  induction t with
  | nil => exact ⟨[], by simp [bucketAppend, lookupAssoc]⟩
  | cons e rest ih =>
      obtain ⟨k, b⟩ := e
      by_cases hk : k = h
      · exact ⟨b, by simp [bucketAppend, lookupAssoc, hk]⟩
      · obtain ⟨b2, hb2⟩ := ih
        exact ⟨b2, by simp [bucketAppend, lookupAssoc, hk, hb2]⟩

theorem mem_bucket_bucketAppend (t : List (List Nat × List Pkt)) (p : Pkt) :
    p ∈ (lookupAssoc (bucketAppend t p.hr p) p.hr).getD [] := by
  obtain ⟨b, hb⟩ := lookup_bucketAppend_self t p.hr p
  simp [hb]

theorem sndTrace_send_aux (brk : Nat → Bool) (p : Pkt) :
    ∀ (ps : List Pkt) (i : Nat) (t : List (List Nat × List Pkt)) (k : Nat),
      (sndTrace brk ps i).get? k = some (SndEvent.send p) →
      (∃ j, j < k ∧ (sndTrace brk ps i).get? j = some (SndEvent.insert p)) ∧
      p ∈ (lookupAssoc (hsentAfter t ((sndTrace brk ps i).take k)) p.hr).getD [] := by
  intro ps
  induction ps with
  | nil => intro i t k hk; simp [sndTrace] at hk
  | cons q ps ih =>
      intro i t k hk
      match k with
      | 0 => simp [sndTrace] at hk
      | 1 =>
          simp [sndTrace] at hk
          subst hk
          refine ⟨⟨0, by omega, by simp [sndTrace]⟩, ?_⟩
          simpa [sndTrace, hsentAfter, hsentStep] using
            mem_bucket_bucketAppend t q
      | (n + 2) =>
          rw [sndTrace] at hk
          simp only [List.get?_cons_succ] at hk
          by_cases hbrk : brk i
          · simp [hbrk] at hk
          · simp only [hbrk, if_false] at hk
            obtain ⟨⟨j, hj, hins⟩, hmem⟩ :=
              ih (i + 1) (bucketAppend t q.hr q) n hk
            refine ⟨⟨j + 2, by omega, ?_⟩, ?_⟩
            · rw [sndTrace]
              simpa [hbrk] using hins
            · rw [sndTrace]
              simpa [hbrk, hsentAfter, hsentStep] using hmem

/-- C1: in `SndRcvHandler._sndrcv_snd`, for every packet `p` of the packet
source, `p` is appended to the outstanding table `hsent` under key
`p.hashret()` strictly before the `send(p)` call: every send event of the
sender trace is preceded by the corresponding insert event, and at the
moment of the send call `p` is already a member of the bucket
`hsent[p.hashret()]`. -/
theorem sndrcv_snd_insert_before_send
    (brk : Nat → Bool) (ps : List Pkt) (k : Nat) (p : Pkt)
    (hk : (sndTrace brk ps 0).get? k = some (SndEvent.send p)) :
    (∃ j, j < k ∧ (sndTrace brk ps 0).get? j = some (SndEvent.insert p)) ∧
    p ∈ (lookupAssoc (hsentAfter [] ((sndTrace brk ps 0).take k)) p.hr).getD [] :=
  sndTrace_send_aux brk p ps 0 [] k hk

/-- Witness for C1 at a concrete two-packet run with the breakout event
never set: the send of the second packet sits at trace position 3, its
insert at position 2, and the packet is in its bucket at that point. -/
theorem sndrcv_snd_insert_before_send_witness :
    (sndTrace (fun _ => false) [⟨0, [1]⟩, ⟨1, [2]⟩] 0).get? 3 =
      some (SndEvent.send ⟨1, [2]⟩) ∧
    ((∃ j, j < 3 ∧ (sndTrace (fun _ => false) [⟨0, [1]⟩, ⟨1, [2]⟩] 0).get? j =
        some (SndEvent.insert ⟨1, [2]⟩)) ∧
      (⟨1, [2]⟩ : Pkt) ∈ (lookupAssoc
        (hsentAfter [] ((sndTrace (fun _ => false) [⟨0, [1]⟩, ⟨1, [2]⟩] 0).take 3))
        [2]).getD []) :=
  ⟨by decide, sndrcv_snd_insert_before_send (fun _ => false)
    [⟨0, [1]⟩, ⟨1, [2]⟩] 3 ⟨1, [2]⟩ (by decide)⟩

/-! ### C2, C3: the reply dispatcher `_process_packet` (src/scapy/sendrecv.py:307-336)

The dispatcher state holds the outstanding table `hsent` (buckets of sent
stimuli, each carrying its `_answered` attribute — absent is modelled as
`false`), the `ans` list of (stimulus, reply) pairs, and the `noans` and
`nbrecv` counters.  The `for i, sentpkt in enumerate(hlst)` scan with its
`break` is `scanBucket`: it walks the bucket, and at the first entry with
`r.answers(sentpkt)` deletes it (single-answer mode, `del hlst[i]`) or
flags it `_answered` in place (multi mode), returning the new bucket, the
matched stimulus and its previous flag. -/

/-- Dispatcher state of `SndRcvHandler` as touched by `_process_packet`. -/
structure MatchState where
  hsent : List (List Nat × List (Pkt × Bool))
  ans : List (Pkt × Pkt)
  noans : Nat
  nbrecv : Nat
  deriving DecidableEq, Repr

/-- The `for i, sentpkt in enumerate(hlst): if r.answers(sentpkt): ... break`
loop body of `_process_packet`: first matching entry is deleted (single
mode) or flagged (multi mode); returns the updated bucket, the matched
stimulus and its previous `_answered` flag, or `none` when no entry
matches. -/
def scanBucket (answers : Pkt → Pkt → Bool) (multi : Bool) (r : Pkt) :
    List (Pkt × Bool) → Option (List (Pkt × Bool) × Pkt × Bool)
  | [] => none
  | e :: es =>
      if answers r e.1 then
        if multi then some ((e.1, true) :: es, e.1, e.2)
        else some (es, e.1, e.2)
      else
        match scanBucket answers multi r es with
        | none => none
        | some (es2, s, fl) => some (e :: es2, s, fl)

/-- `SndRcvHandler._process_packet(r)`: ignore `None`; look the reply's
`hashret` up in `hsent`; scan the bucket for the first stimulus the reply
answers; on a match append the pair to `ans` and update `noans` (always
incremented in single mode; in multi mode only when the stimulus was not
yet flagged); without a match increment `nbrecv`. -/
def process_packet (answers : Pkt → Pkt → Bool) (multi : Bool)
    (st : MatchState) (r : Option Pkt) : MatchState :=
  match r with
  | none => st
  | some r =>
      match lookupAssoc st.hsent r.hr with
      | some hlst =>
          match scanBucket answers multi r hlst with
          | some (hlst2, s, fl) =>
              { st with
                hsent := setAssoc st.hsent r.hr hlst2
                ans := st.ans ++ [(s, r)]
                noans := if multi then (if fl then st.noans else st.noans + 1)
                         else st.noans + 1 }
          | none => { st with nbrecv := st.nbrecv + 1 }
      | none => { st with nbrecv := st.nbrecv + 1 }

/-- Dispatching a whole sequence of received packets, in arrival order. -/
def processAll (answers : Pkt → Pkt → Bool) (multi : Bool)
    (st : MatchState) (rs : List (Option Pkt)) : MatchState :=
  rs.foldl (process_packet answers multi) st

/-- Number of entries for a given stimulus identity in one bucket. -/
def bucketPidCount (pid : Nat) (b : List (Pkt × Bool)) : Nat :=
  (b.filter (fun e => e.1.pid = pid)).length

/-- Number of flagged (`_answered`) entries in one bucket. -/
def bucketFlagCount (b : List (Pkt × Bool)) : Nat :=
  (b.filter (fun e => e.2)).length

/-- A bucket measure summed over the whole `hsent` table. -/
def tableMeasure (m : List (Pkt × Bool) → Nat)
    (t : List (List Nat × List (Pkt × Bool))) : Nat :=
  (t.map (fun kb => m kb.2)).sum

/-- Number of outstanding entries for a stimulus identity in the table. -/
def tablePidCount (pid : Nat) (t : List (List Nat × List (Pkt × Bool))) : Nat :=
  tableMeasure (bucketPidCount pid) t

/-- Number of flagged entries in the whole table. -/
def tableFlagCount (t : List (List Nat × List (Pkt × Bool))) : Nat :=
  tableMeasure bucketFlagCount t

/-- Number of pairs in the answered list whose stimulus has the given
identity. -/
def ansPidCount (pid : Nat) (l : List (Pkt × Pkt)) : Nat :=
  (l.filter (fun pr => pr.1.pid = pid)).length

theorem tableMeasure_setAssoc (m : List (Pkt × Bool) → Nat)
    (t : List (List Nat × List (Pkt × Bool))) (h : List Nat)
    (b b2 : List (Pkt × Bool)) (hl : lookupAssoc t h = some b) :
    tableMeasure m (setAssoc t h b2) + m b = tableMeasure m t + m b2 := by
  induction t with
  | nil => simp [lookupAssoc] at hl
  | cons e rest ih =>
      obtain ⟨k, c⟩ := e
      by_cases hk : k = h
      · rw [lookupAssoc] at hl
        simp only [hk, if_true] at hl
        cases hl
        simp [setAssoc, tableMeasure, hk]
        omega
      · rw [lookupAssoc] at hl
        simp only [hk, if_false] at hl
        have := ih hl
        simp only [setAssoc, hk, if_false, tableMeasure, List.map_cons,
          List.sum_cons] at this ⊢
        omega

theorem scanBucket_false_pidCount (answers : Pkt → Pkt → Bool) (r : Pkt) :
    ∀ (b b2 : List (Pkt × Bool)) (s : Pkt) (fl : Bool),
      scanBucket answers false r b = some (b2, s, fl) →
      ∀ pid, bucketPidCount pid b2 + (if s.pid = pid then 1 else 0) =
        bucketPidCount pid b := by
  intro b
  induction b with
  | nil => intro b2 s fl h; simp [scanBucket] at h
  | cons e es ih =>
      intro b2 s fl h pid
      rw [scanBucket] at h
      by_cases ha : answers r e.1
      · simp [ha] at h
        obtain ⟨rfl, rfl⟩ := h
        simp only [bucketPidCount, List.filter_cons]
        by_cases hp : s.pid = pid <;> simp [hp] <;> omega
      · simp only [ha, if_false] at h
        cases hscan : scanBucket answers false r es with
        | none => rw [hscan] at h; simp at h
        | some v =>
            obtain ⟨es2, s2, fl2⟩ := v
            rw [hscan] at h
            simp at h
            obtain ⟨rfl, rfl, rfl⟩ := h
            have hih := ih es2 s2 fl2 hscan pid
            simp only [bucketPidCount, List.filter_cons] at hih ⊢
            by_cases hp : e.1.pid = pid
            · simp [hp]
              omega
            · simp [hp]
              omega

theorem scanBucket_true_facts (answers : Pkt → Pkt → Bool) (r : Pkt) :
    ∀ (b b2 : List (Pkt × Bool)) (s : Pkt) (fl : Bool),
      scanBucket answers true r b = some (b2, s, fl) →
      b2.map Prod.fst = b.map Prod.fst ∧
      bucketFlagCount b2 = bucketFlagCount b + (if fl then 0 else 1) ∧
      (s, true) ∈ b2 := by
  intro b
  induction b with
  | nil => intro b2 s fl h; simp [scanBucket] at h
  | cons e es ih =>
      intro b2 s fl h
      rw [scanBucket] at h
      by_cases ha : answers r e.1
      · simp [ha] at h
        obtain ⟨h1, rfl⟩ := h
        subst h1
        refine ⟨by simp, ?_, by simp⟩
        simp only [bucketFlagCount, List.filter_cons]
        cases fl <;> simp <;> omega
      · simp only [ha, if_false] at h
        cases hscan : scanBucket answers true r es with
        | none => rw [hscan] at h; simp at h
        | some v =>
            obtain ⟨es2, s2, fl2⟩ := v
            rw [hscan] at h
            simp at h
            obtain ⟨rfl, rfl, rfl⟩ := h
            obtain ⟨g1, g2, g3⟩ := ih es2 s2 fl2 hscan
            refine ⟨by simp [g1], ?_, by simp [g3]⟩
            simp only [bucketFlagCount, List.filter_cons] at g2 ⊢
            cases hfl2 : e.2 <;> simp [hfl2, g2] <;> omega

theorem ansPidCount_append_pair (pid : Nat) (l : List (Pkt × Pkt)) (s r : Pkt) :
    ansPidCount pid (l ++ [(s, r)]) =
      ansPidCount pid l + (if s.pid = pid then 1 else 0) := by
  by_cases hp : s.pid = pid <;> simp [ansPidCount, hp]

theorem process_packet_false_pid_step (answers : Pkt → Pkt → Bool)
    (st : MatchState) (r : Option Pkt) (pid : Nat) :
    ansPidCount pid (process_packet answers false st r).ans
      + tablePidCount pid (process_packet answers false st r).hsent
    = ansPidCount pid st.ans + tablePidCount pid st.hsent := by
  cases r with
  | none => rfl
  | some r =>
      simp only [process_packet]
      cases hl : lookupAssoc st.hsent r.hr with
      | none => simp
      | some hlst =>
          cases hscan : scanBucket answers false r hlst with
          | none => simp [hscan]
          | some v =>
              obtain ⟨hlst2, s, fl⟩ := v
              have hset := tableMeasure_setAssoc (bucketPidCount pid)
                st.hsent r.hr hlst hlst2 hl
              have hcnt := scanBucket_false_pidCount answers r
                hlst hlst2 s fl hscan pid
              simp [hscan, tablePidCount, ansPidCount_append_pair]
              omega

theorem process_packet_false_noans_step (answers : Pkt → Pkt → Bool)
    (st : MatchState) (r : Option Pkt) :
    (process_packet answers false st r).noans + st.ans.length
      = st.noans + (process_packet answers false st r).ans.length := by
  cases r with
  | none => rfl
  | some r =>
      simp only [process_packet]
      cases hl : lookupAssoc st.hsent r.hr with
      | none => simp
      | some hlst =>
          cases hscan : scanBucket answers false r hlst with
          | none => simp [hscan]
          | some v =>
              obtain ⟨hlst2, s, fl⟩ := v
              simp [hscan]
              omega

theorem processAll_false_pid_inv (answers : Pkt → Pkt → Bool)
    (rs : List (Option Pkt)) :
    ∀ (st : MatchState) (pid : Nat),
      ansPidCount pid (processAll answers false st rs).ans
        + tablePidCount pid (processAll answers false st rs).hsent
      = ansPidCount pid st.ans + tablePidCount pid st.hsent := by
  induction rs with
  | nil => intro st pid; rfl
  | cons r rs ih =>
      intro st pid
      have h1 := process_packet_false_pid_step answers st r pid
      have h2 := ih (process_packet answers false st r) pid
      simp only [processAll, List.foldl_cons] at h2 ⊢
      omega

theorem processAll_false_noans_inv (answers : Pkt → Pkt → Bool)
    (rs : List (Option Pkt)) :
    ∀ st : MatchState,
      (processAll answers false st rs).noans + st.ans.length
        = st.noans + (processAll answers false st rs).ans.length := by
  induction rs with
  | nil => intro st; rfl
  | cons r rs ih =>
      intro st
      have h1 := process_packet_false_noans_step answers st r
      have h2 := ih (process_packet answers false st r)
      simp only [processAll, List.foldl_cons] at h2 ⊢
      omega

/-- C2: in single-answer mode (`multi` false), for every stimulus identity,
at most one (stimulus, reply) pair is ever recorded in `ans`: processing a
matching reply deletes the stimulus from its fingerprint bucket and
increments `noans` by exactly one per recorded pair, so provided each
stimulus starts out with at most one outstanding occurrence (and at most
one already-recorded pair), it can never match a second reply. -/
theorem process_packet_single_mode_at_most_one
    (answers : Pkt → Pkt → Bool) (st : MatchState) (rs : List (Option Pkt))
    (hinv : ∀ pid, ansPidCount pid st.ans + tablePidCount pid st.hsent ≤ 1) :
    (∀ pid, ansPidCount pid (processAll answers false st rs).ans ≤ 1) ∧
    (processAll answers false st rs).noans + st.ans.length
      = st.noans + (processAll answers false st rs).ans.length := by
  refine ⟨fun pid => ?_, processAll_false_noans_inv answers rs st⟩
  have h := processAll_false_pid_inv answers rs st pid
  have h2 := hinv pid
  omega

/-- Witness for C2: one outstanding stimulus (identity 0, fingerprint
`[5]`), two replies that both answer it; only one pair is recorded and
`noans` counts exactly the recorded pairs. -/
theorem process_packet_single_mode_at_most_one_witness :
    (∀ pid, ansPidCount pid
        (MatchState.mk [([5], [(⟨0, [5]⟩, false)])] [] 0 0).ans
      + tablePidCount pid
        (MatchState.mk [([5], [(⟨0, [5]⟩, false)])] [] 0 0).hsent ≤ 1) ∧
    ((∀ pid, ansPidCount pid
        (processAll (fun a b => decide (a.pid = 10 ∧ b.pid = 0)) false
          (MatchState.mk [([5], [(⟨0, [5]⟩, false)])] [] 0 0)
          [some ⟨10, [5]⟩, some ⟨10, [5]⟩]).ans ≤ 1) ∧
      (processAll (fun a b => decide (a.pid = 10 ∧ b.pid = 0)) false
          (MatchState.mk [([5], [(⟨0, [5]⟩, false)])] [] 0 0)
          [some ⟨10, [5]⟩, some ⟨10, [5]⟩]).noans
        + (MatchState.mk [([5], [(⟨0, [5]⟩, false)])] [] 0 0).ans.length
      = (MatchState.mk [([5], [(⟨0, [5]⟩, false)])] [] 0 0).noans
        + (processAll (fun a b => decide (a.pid = 10 ∧ b.pid = 0)) false
            (MatchState.mk [([5], [(⟨0, [5]⟩, false)])] [] 0 0)
            [some ⟨10, [5]⟩, some ⟨10, [5]⟩]).ans.length) := by
  have hinv : ∀ pid, ansPidCount pid
        (MatchState.mk [([5], [(⟨0, [5]⟩, false)])] [] 0 0 : MatchState).ans
      + tablePidCount pid
        (MatchState.mk [([5], [(⟨0, [5]⟩, false)])] [] 0 0 : MatchState).hsent ≤ 1 := by
    intro pid
    by_cases hp : pid = 0
    · subst hp
      decide
    · simp [ansPidCount, tablePidCount, tableMeasure, bucketPidCount,
        hp, Ne.symm hp]
  exact ⟨hinv, process_packet_single_mode_at_most_one
    (fun a b => decide (a.pid = 10 ∧ b.pid = 0))
    (MatchState.mk [([5], [(⟨0, [5]⟩, false)])] [] 0 0)
    [some ⟨10, [5]⟩, some ⟨10, [5]⟩] hinv⟩

theorem process_packet_true_flag_step (answers : Pkt → Pkt → Bool)
    (st : MatchState) (r : Option Pkt) :
    (process_packet answers true st r).noans + tableFlagCount st.hsent
      = st.noans + tableFlagCount (process_packet answers true st r).hsent := by
  cases r with
  | none => rfl
  | some r =>
      simp only [process_packet]
      cases hl : lookupAssoc st.hsent r.hr with
      | none => simp
      | some hlst =>
          cases hscan : scanBucket answers true r hlst with
          | none => simp [hscan]
          | some v =>
              obtain ⟨hlst2, s, fl⟩ := v
              have hset := tableMeasure_setAssoc bucketFlagCount
                st.hsent r.hr hlst hlst2 hl
              obtain ⟨g1, g2, g3⟩ :=
                scanBucket_true_facts answers r hlst hlst2 s fl hscan
              simp [hscan, tableFlagCount]
              cases fl <;> simp at g2 ⊢ <;> omega

theorem processAll_true_flag_inv (answers : Pkt → Pkt → Bool)
    (rs : List (Option Pkt)) :
    ∀ st : MatchState,
      (processAll answers true st rs).noans + tableFlagCount st.hsent
        = st.noans + tableFlagCount (processAll answers true st rs).hsent := by
  induction rs with
  | nil => intro st; rfl
  | cons r rs ih =>
      intro st
      have h1 := process_packet_true_flag_step answers st r
      have h2 := ih (process_packet answers true st r)
      simp only [processAll, List.foldl_cons] at h2 ⊢
      omega

/-- C3: in multi-answer mode, a matching reply `r` appends exactly one
(stimulus, reply) pair to `ans`; the matched stimulus stays in its
fingerprint bucket (the bucket keeps exactly the same stimuli) and is
marked with the `_answered` flag; `noans` is incremented exactly when the
stimulus was not yet flagged (its first match) and is left unchanged on
subsequent matches; and over any run the growth of `noans` equals the
number of newly flagged stimuli, so each stimulus contributes at most
once to `noans` no matter how many replies it collects. -/
theorem process_packet_multi_mode_first_match
    (answers : Pkt → Pkt → Bool) (st : MatchState) (r : Pkt)
    (hlst hlst2 : List (Pkt × Bool)) (s : Pkt) (fl : Bool)
    (hl : lookupAssoc st.hsent r.hr = some hlst)
    (hscan : scanBucket answers true r hlst = some (hlst2, s, fl)) :
    (process_packet answers true st (some r)).ans = st.ans ++ [(s, r)] ∧
    hlst2.map Prod.fst = hlst.map Prod.fst ∧
    (s, true) ∈ hlst2 ∧
    (process_packet answers true st (some r)).noans
      = (if fl then st.noans else st.noans + 1) ∧
    (∀ (st3 : MatchState) (rs : List (Option Pkt)),
      (processAll answers true st3 rs).noans + tableFlagCount st3.hsent
        = st3.noans + tableFlagCount (processAll answers true st3 rs).hsent) := by
  obtain ⟨g1, g2, g3⟩ := scanBucket_true_facts answers r hlst hlst2 s fl hscan
  refine ⟨?_, g1, g3, ?_, fun st3 rs => processAll_true_flag_inv answers rs st3⟩
  · simp [process_packet, hl, hscan]
  · simp [process_packet, hl, hscan]

/-- Witness for C3: one outstanding stimulus (identity 0, fingerprint
`[5]`) already flagged as answered by a first reply; a second matching
reply appends a second pair but leaves `noans` unchanged. -/
theorem process_packet_multi_mode_first_match_witness :
    lookupAssoc
        (MatchState.mk [([5], [(⟨0, [5]⟩, true)])] [(⟨0, [5]⟩, ⟨10, [5]⟩)] 1 0).hsent
        [5] = some [(⟨0, [5]⟩, true)] ∧
    scanBucket (fun a b => decide (a.pid = 10 ∧ b.pid = 0)) true ⟨10, [5]⟩
        [(⟨0, [5]⟩, true)] = some ([(⟨0, [5]⟩, true)], ⟨0, [5]⟩, true) ∧
    ((process_packet (fun a b => decide (a.pid = 10 ∧ b.pid = 0)) true
        (MatchState.mk [([5], [(⟨0, [5]⟩, true)])] [(⟨0, [5]⟩, ⟨10, [5]⟩)] 1 0)
        (some ⟨10, [5]⟩)).ans
      = (MatchState.mk [([5], [(⟨0, [5]⟩, true)])]
          [(⟨0, [5]⟩, ⟨10, [5]⟩)] 1 0).ans ++ [(⟨0, [5]⟩, ⟨10, [5]⟩)] ∧
    ([(⟨0, [5]⟩, true)] : List (Pkt × Bool)).map Prod.fst
      = ([(⟨0, [5]⟩, true)] : List (Pkt × Bool)).map Prod.fst ∧
    ((⟨0, [5]⟩, true) : Pkt × Bool) ∈ ([(⟨0, [5]⟩, true)] : List (Pkt × Bool)) ∧
    (process_packet (fun a b => decide (a.pid = 10 ∧ b.pid = 0)) true
        (MatchState.mk [([5], [(⟨0, [5]⟩, true)])] [(⟨0, [5]⟩, ⟨10, [5]⟩)] 1 0)
        (some ⟨10, [5]⟩)).noans
      = (if true then
          (MatchState.mk [([5], [(⟨0, [5]⟩, true)])]
            [(⟨0, [5]⟩, ⟨10, [5]⟩)] 1 0).noans
        else (MatchState.mk [([5], [(⟨0, [5]⟩, true)])]
            [(⟨0, [5]⟩, ⟨10, [5]⟩)] 1 0).noans + 1) ∧
    (∀ (st3 : MatchState) (rs : List (Option Pkt)),
      (processAll (fun a b => decide (a.pid = 10 ∧ b.pid = 0)) true st3 rs).noans
          + tableFlagCount st3.hsent
        = st3.noans + tableFlagCount
            (processAll (fun a b => decide (a.pid = 10 ∧ b.pid = 0)) true st3 rs).hsent)) :=
  ⟨by decide, by decide, process_packet_multi_mode_first_match
    (fun a b => decide (a.pid = 10 ∧ b.pid = 0))
    (MatchState.mk [([5], [(⟨0, [5]⟩, true)])] [(⟨0, [5]⟩, ⟨10, [5]⟩)] 1 0)
    ⟨10, [5]⟩ [(⟨0, [5]⟩, true)] [(⟨0, [5]⟩, true)] ⟨0, [5]⟩ true
    (by decide) (by decide)⟩

/-! ### C4: the sniffer main loop of `AsyncSniffer._run` (src/scapy/sendrecv.py:1320-1383)

The packet-processing part of the loop is modelled over an explicit
schedule: each outer iteration (one `select` call) delivers a *batch*,
the list of per-ready-socket packet lists (`session.recv(s)` for each
ready socket `s`).  The control pipe, socket EOF/error eviction and the
timeout bookkeeping are not exercised by this claim and are not modelled;
the loop guard `while sniff_sockets and self.continue_sniff` is the
`continue_sniff` test before each batch.  Note that the `break` on a
firing `stop_filter`/count quota only leaves the inner `for p in packets`
loop: the `for s in sockets` loop goes on to the next ready socket of the
same batch without re-testing `continue_sniff`. -/

/-- Sniffer configuration: `count` quota (0 means unlimited), `store`,
whether a `prn` callback is installed, and the `lfilter` / `stop_filter`
predicates. -/
structure SniffCfg where
  count : Nat
  store : Bool
  prn : Bool
  lfilter : Option (Pkt → Bool)
  stop_filter : Option (Pkt → Bool)

/-- Sniffer state: `self.count`, the stored list `lst`, the packets passed
to `prn`, and the `continue_sniff` flag. -/
structure SniffState where
  scount : Nat
  lst : List Pkt
  prnLog : List Pkt
  continue_sniff : Bool
  deriving DecidableEq, Repr

/-- The inner `for p in packets` loop of `AsyncSniffer._run`: drop packets
rejected by `lfilter`; otherwise increment `self.count`, store and hand to
`prn` as configured, then evaluate `stop_filter` and the quota
`0 < count <= self.count`; if either fires, clear `continue_sniff` and
break out of this packet list. -/
def procPackets (cfg : SniffCfg) : SniffState → List Pkt → SniffState
  | st, [] => st
  | st, p :: ps =>
      if (match cfg.lfilter with | some f => !(f p) | none => false) then
        procPackets cfg st ps
      else
        let st3 : SniffState :=
          ⟨st.scount + 1,
           if cfg.store then st.lst ++ [p] else st.lst,
           if cfg.prn then st.prnLog ++ [p] else st.prnLog,
           st.continue_sniff⟩
        if (match cfg.stop_filter with | some f => f p | none => false)
            || (decide (0 < cfg.count) && decide (cfg.count ≤ st3.scount)) then
          ⟨st3.scount, st3.lst, st3.prnLog, false⟩
        else
          procPackets cfg st3 ps

/-- The `for s in sockets` loop over one `select` batch: every ready
socket of the batch is processed, with no `continue_sniff` check between
sockets. -/
def procBatch (cfg : SniffCfg) : SniffState → List (List Pkt) → SniffState
  | st, [] => st
  | st, ps :: rest => procBatch cfg (procPackets cfg st ps) rest

/-- The `while sniff_sockets and self.continue_sniff` loop over the whole
schedule of select batches. -/
def snRun (cfg : SniffCfg) : SniffState → List (List (List Pkt)) → SniffState
  | st, [] => st
  | st, batch :: batches =>
      if st.continue_sniff then snRun cfg (procBatch cfg st batch) batches
      else st

/-- Whether `lfilter` accepts a packet (`None` accepts everything). -/
def acceptB (lf : Option (Pkt → Bool)) (p : Pkt) : Bool :=
  match lf with | some f => f p | none => true

/-- Number of packets of one socket's list accepted by `lfilter`. -/
def acceptedList (lf : Option (Pkt → Bool)) (ps : List Pkt) : Nat :=
  (ps.filter (acceptB lf)).length

/-- Number of accepted packets in one select batch. -/
def acceptedBatch (lf : Option (Pkt → Bool)) (b : List (List Pkt)) : Nat :=
  (b.map (acceptedList lf)).sum

/-- Number of accepted packets in a whole schedule. -/
def acceptedSched (lf : Option (Pkt → Bool)) (bs : List (List (List Pkt))) : Nat :=
  (bs.map (acceptedBatch lf)).sum

/-- Counterexample to C4: with `count = 1` and one select call returning
two ready sockets, each delivering one packet, the quota fires on the
first socket's packet, yet the second socket's packet of the same batch
is still counted and stored: the run accepts 2 packets, not exactly 1. -/
theorem asyncsniffer_count_batch_counterexample :
    (snRun ⟨1, true, true, none, none⟩ ⟨0, [], [], true⟩
        [[[⟨0, []⟩], [⟨1, []⟩]]]).scount = 2 ∧
    (snRun ⟨1, true, true, none, none⟩ ⟨0, [], [], true⟩
        [[[⟨0, []⟩], [⟨1, []⟩]]]).lst = [⟨0, []⟩, ⟨1, []⟩] ∧
    (snRun ⟨1, true, true, none, none⟩ ⟨0, [], [], true⟩
        [[[⟨0, []⟩], [⟨1, []⟩]]]).prnLog = [⟨0, []⟩, ⟨1, []⟩] ∧
    ¬ (snRun ⟨1, true, true, none, none⟩ ⟨0, [], [], true⟩
        [[[⟨0, []⟩], [⟨1, []⟩]]]).scount = 1 := by
  decide

theorem skip_eq_not_accept (lf : Option (Pkt → Bool)) (p : Pkt) :
    (match lf with | some f => !(f p) | none => false) = !(acceptB lf p) := by
  cases lf <;> rfl

theorem snRun_halt (cfg : SniffCfg) (st : SniffState)
    (bs : List (List (List Pkt))) (h : st.continue_sniff = false) :
    snRun cfg st bs = st := by
  cases bs with
  | nil => rfl
  | cons b bs => simp [snRun, h]

theorem procPackets_break (cfg : SniffCfg) :
    ∀ (l1 : List Pkt) (st : SniffState) (p : Pkt) (l2 : List Pkt),
      (procPackets cfg st l1).continue_sniff = true →
      (procPackets cfg st (l1 ++ [p])).continue_sniff = false →
      procPackets cfg st (l1 ++ p :: l2) = procPackets cfg st (l1 ++ [p]) := by
  intro l1
  induction l1 with
  | nil =>
      intro st p l2 h1 h2
      simp only [procPackets] at h1
      by_cases hf : (match cfg.lfilter with | some f => !(f p) | none => false) = true
      · simp [procPackets, hf] at h2
        simp [h1] at h2
      · by_cases hfire : ((match cfg.stop_filter with | some f => f p | none => false)
            || (decide (0 < cfg.count) && decide (cfg.count ≤ st.scount + 1))) = true
        · simp [procPackets, hf, hfire]
        · simp [procPackets, hf, hfire] at h2
          simp [h1] at h2
  | cons q l1 ih =>
      intro st p l2 h1 h2
      by_cases hf : (match cfg.lfilter with | some f => !(f q) | none => false) = true
      · simp [procPackets, hf] at h1 h2 ⊢
        exact ih st p l2 h1 h2
      · by_cases hfire : ((match cfg.stop_filter with | some f => f q | none => false)
            || (decide (0 < cfg.count) && decide (cfg.count ≤ st.scount + 1))) = true
        · simp [procPackets, hf, hfire] at h1
        · simp [procPackets, hf, hfire] at h1 h2 ⊢
          exact ih _ p l2 h1 h2

/-- The `stop_filter`-or-quota test of `AsyncSniffer._run`, as a function
of the post-increment `self.count`. -/
def fireB (cfg : SniffCfg) (p : Pkt) (n : Nat) : Bool :=
  (match cfg.stop_filter with | some f => f p | none => false)
    || (decide (0 < cfg.count) && decide (cfg.count ≤ n))

theorem procPackets_cons_skip (cfg : SniffCfg) (st : SniffState) (p : Pkt)
    (ps : List Pkt) (h : acceptB cfg.lfilter p = false) :
    procPackets cfg st (p :: ps) = procPackets cfg st ps := by
  have hs := skip_eq_not_accept cfg.lfilter p
  rw [h] at hs
  simp [procPackets, hs]

theorem procPackets_cons_accept (cfg : SniffCfg) (st : SniffState) (p : Pkt)
    (ps : List Pkt) (h : acceptB cfg.lfilter p = true) :
    procPackets cfg st (p :: ps) =
      if fireB cfg p (st.scount + 1) then
        (⟨st.scount + 1,
          if cfg.store then st.lst ++ [p] else st.lst,
          if cfg.prn then st.prnLog ++ [p] else st.prnLog, false⟩ : SniffState)
      else procPackets cfg
        ⟨st.scount + 1,
         if cfg.store then st.lst ++ [p] else st.lst,
         if cfg.prn then st.prnLog ++ [p] else st.prnLog,
         st.continue_sniff⟩ ps := by
  have hs := skip_eq_not_accept cfg.lfilter p
  rw [h] at hs
  simp [procPackets, hs, fireB]

theorem acceptedList_cons_true (lf : Option (Pkt → Bool)) (p : Pkt)
    (ps : List Pkt) (h : acceptB lf p = true) :
    acceptedList lf (p :: ps) = acceptedList lf ps + 1 := by
  simp [acceptedList, List.filter_cons, h]

theorem acceptedList_cons_false (lf : Option (Pkt → Bool)) (p : Pkt)
    (ps : List Pkt) (h : acceptB lf p = false) :
    acceptedList lf (p :: ps) = acceptedList lf ps := by
  simp [acceptedList, List.filter_cons, h]

theorem procPackets_quota (N : Nat) (store prn : Bool) (lf : Option (Pkt → Bool))
    (hN : 0 < N) :
    ∀ (ps : List Pkt) (st : SniffState),
      st.continue_sniff = true → st.scount < N →
      ((st.scount + acceptedList lf ps < N →
        (procPackets ⟨N, store, prn, lf, none⟩ st ps).scount
          = st.scount + acceptedList lf ps ∧
        (procPackets ⟨N, store, prn, lf, none⟩ st ps).continue_sniff = true) ∧
       (N ≤ st.scount + acceptedList lf ps →
        (procPackets ⟨N, store, prn, lf, none⟩ st ps).scount = N ∧
        (procPackets ⟨N, store, prn, lf, none⟩ st ps).continue_sniff = false)) := by
  intro ps
  induction ps with
  | nil =>
      intro st hc hlt
      constructor
      · intro _
        exact ⟨by simp [procPackets, acceptedList], by simp [procPackets, hc]⟩
      · intro hge
        exfalso
        simp [acceptedList] at hge
        omega
  | cons p ps ih =>
      intro st hc hlt
      by_cases hacc : acceptB lf p = true
      · rw [procPackets_cons_accept ⟨N, store, prn, lf, none⟩ st p ps hacc,
          acceptedList_cons_true lf p ps hacc]
        by_cases hq : N ≤ st.scount + 1
        · have hfb : fireB ⟨N, store, prn, lf, none⟩ p (st.scount + 1) = true := by
            simp [fireB, hN, hq]
          rw [hfb]
          constructor
          · intro hltsum
            exfalso
            omega
          · intro _
            exact ⟨by simp; omega, by simp⟩
        · have hfb : fireB ⟨N, store, prn, lf, none⟩ p (st.scount + 1) = false := by
            simp [fireB, hq]
          rw [hfb]
          have hrec := ih ⟨st.scount + 1,
            if store then st.lst ++ [p] else st.lst,
            if prn then st.prnLog ++ [p] else st.prnLog,
            st.continue_sniff⟩ (by simpa using hc) (by simp; omega)
          simp only [Bool.false_eq_true, if_false]
          constructor
          · intro hltsum
            have hr := hrec.1 (by simp; omega)
            refine ⟨?_, hr.2⟩
            rw [hr.1]
            simp
            omega
          · intro hge
            have hr := hrec.2 (by simp; omega)
            exact ⟨hr.1, hr.2⟩
      · have hacc0 : acceptB lf p = false := by simpa using hacc
        rw [procPackets_cons_skip ⟨N, store, prn, lf, none⟩ st p ps hacc0,
          acceptedList_cons_false lf p ps hacc0]
        exact ih st hc hlt

theorem snRun_quota (N : Nat) (store prn : Bool) (lf : Option (Pkt → Bool))
    (hN : 0 < N) :
    ∀ (bs : List (List (List Pkt))) (st : SniffState),
      (∀ b ∈ bs, b.length ≤ 1) →
      st.continue_sniff = true → st.scount < N →
      ((st.scount + acceptedSched lf bs < N →
        (snRun ⟨N, store, prn, lf, none⟩ st bs).scount
          = st.scount + acceptedSched lf bs ∧
        (snRun ⟨N, store, prn, lf, none⟩ st bs).continue_sniff = true) ∧
       (N ≤ st.scount + acceptedSched lf bs →
        (snRun ⟨N, store, prn, lf, none⟩ st bs).scount = N ∧
        (snRun ⟨N, store, prn, lf, none⟩ st bs).continue_sniff = false)) := by
  intro bs
  induction bs with
  | nil =>
      intro st hb hc hlt
      constructor
      · intro _
        exact ⟨by simp [snRun, acceptedSched], by simp [snRun, hc]⟩
      · intro hge
        exfalso
        simp [acceptedSched] at hge
        omega
  | cons b bs ih =>
      intro st hb hc hlt
      have hbs : ∀ x ∈ bs, x.length ≤ 1 := fun x hx => hb x (by simp [hx])
      have hrun : snRun ⟨N, store, prn, lf, none⟩ st (b :: bs)
          = snRun ⟨N, store, prn, lf, none⟩
              (procBatch ⟨N, store, prn, lf, none⟩ st b) bs := by
        rw [snRun, if_pos hc]
      cases b with
      | nil =>
          rw [hrun]
          have hsched : acceptedSched lf ([] :: bs) = acceptedSched lf bs := by
            simp [acceptedSched, acceptedBatch]
          rw [hsched]
          exact ih st hbs hc hlt
      | cons ps rest =>
          cases rest with
          | cons x xs => simp at hb
          | nil =>
              rw [hrun]
              have hpb : procBatch ⟨N, store, prn, lf, none⟩ st [ps]
                  = procPackets ⟨N, store, prn, lf, none⟩ st ps := by
                simp [procBatch]
              rw [hpb]
              have hsched : acceptedSched lf ([ps] :: bs)
                  = acceptedList lf ps + acceptedSched lf bs := by
                simp [acceptedSched, acceptedBatch]
              rw [hsched]
              have hA := procPackets_quota N store prn lf hN ps st hc hlt
              by_cases hcase : st.scount + acceptedList lf ps < N
              · obtain ⟨hsc, hcont⟩ := hA.1 hcase
                have hlt2 : (procPackets ⟨N, store, prn, lf, none⟩ st ps).scount < N := by
                  omega
                have hI := ih (procPackets ⟨N, store, prn, lf, none⟩ st ps)
                  hbs hcont hlt2
                constructor
                · intro hltsum
                  obtain ⟨i1, i2⟩ := hI.1 (by omega)
                  exact ⟨by omega, i2⟩
                · intro hge
                  obtain ⟨i1, i2⟩ := hI.2 (by omega)
                  exact ⟨i1, i2⟩
              · obtain ⟨hsc, hcont⟩ := hA.2 (by omega)
                rw [snRun_halt _ _ _ hcont]
                constructor
                · intro hltsum
                  exfalso
                  omega
                · intro _
                  exact ⟨hsc, hcont⟩

/-- C4 amended: once `continue_sniff` is cleared no later select batch is
processed; within one ready socket's packet list, the packet on which the
quota or `stop_filter` fires is the last one processed (the `break` skips
the rest of that list); and when every select call returns at most one
ready socket (and no `stop_filter` is installed), a run with `count = N > 0`
and at least `N` accepted packets available stops with exactly `N`
accepted.  (As the counterexample shows, packets delivered by *other*
ready sockets of the same select batch are still processed after the
quota fires, so the per-batch part of the original claim is false.) -/
theorem asyncsniffer_count_amended :
    (∀ (cfg : SniffCfg) (st : SniffState) (bs : List (List (List Pkt))),
      st.continue_sniff = false → snRun cfg st bs = st) ∧
    (∀ (cfg : SniffCfg) (l1 : List Pkt) (st : SniffState) (p : Pkt) (l2 : List Pkt),
      (procPackets cfg st l1).continue_sniff = true →
      (procPackets cfg st (l1 ++ [p])).continue_sniff = false →
      procPackets cfg st (l1 ++ p :: l2) = procPackets cfg st (l1 ++ [p])) ∧
    (∀ (N : Nat) (store prn : Bool) (lf : Option (Pkt → Bool))
        (bs : List (List (List Pkt))),
      0 < N → (∀ b ∈ bs, b.length ≤ 1) → N ≤ acceptedSched lf bs →
      (snRun ⟨N, store, prn, lf, none⟩ ⟨0, [], [], true⟩ bs).scount = N ∧
      (snRun ⟨N, store, prn, lf, none⟩ ⟨0, [], [], true⟩ bs).continue_sniff
        = false) := by
  refine ⟨snRun_halt, procPackets_break, ?_⟩
  intro N store prn lf bs hN hb hacc
  exact (snRun_quota N store prn lf hN bs ⟨0, [], [], true⟩ hb rfl hN).2
    (by omega)

/-- Witness for the amended C4 at a concrete schedule: three select
batches with a single ready socket each, quota 2; the run stops with
exactly 2 accepted packets and the third batch unread. -/
theorem asyncsniffer_count_amended_witness :
    ((⟨1, [⟨9, []⟩], [], false⟩ : SniffState).continue_sniff = false ∧
      snRun ⟨5, true, false, none, none⟩ ⟨1, [⟨9, []⟩], [], false⟩
        [[[⟨0, []⟩]]] = ⟨1, [⟨9, []⟩], [], false⟩) ∧
    (0 < 2 ∧ (∀ b ∈ [[[(⟨0, []⟩ : Pkt)]], [[⟨1, []⟩]], [[⟨2, []⟩]]], b.length ≤ 1) ∧
      2 ≤ acceptedSched none [[[(⟨0, []⟩ : Pkt)]], [[⟨1, []⟩]], [[⟨2, []⟩]]] ∧
      (snRun ⟨2, true, false, none, none⟩ ⟨0, [], [], true⟩
        [[[(⟨0, []⟩ : Pkt)]], [[⟨1, []⟩]], [[⟨2, []⟩]]]).scount = 2 ∧
      (snRun ⟨2, true, false, none, none⟩ ⟨0, [], [], true⟩
        [[[(⟨0, []⟩ : Pkt)]], [[⟨1, []⟩]], [[⟨2, []⟩]]]).continue_sniff = false) := by
  constructor
  · exact ⟨rfl, asyncsniffer_count_amended.1 ⟨5, true, false, none, none⟩
      ⟨1, [⟨9, []⟩], [], false⟩ [[[⟨0, []⟩]]] rfl⟩
  · refine ⟨by decide, by decide, by decide, ?_⟩
    exact asyncsniffer_count_amended.2.2 2 true false none
      [[[(⟨0, []⟩ : Pkt)]], [[⟨1, []⟩]], [[⟨2, []⟩]]]
      (by decide) (by decide) (by decide)

/-! ### C5: the retry / autostop loop of `SndRcvHandler.__init__`
(src/scapy/sendrecv.py:168-227)

`if retry < 0: autostop = retry = -retry` records the autostop budget and
makes `retry` positive.  The `while retry >= 0` loop performs one
send/receive pass per iteration; a pass is abstracted as an oracle
mapping the pass index and the current `tobesent` list to `remain`, the
stimuli still unanswered after the pass (in the code, what is left in
`hsent`).  After a pass: if `autostop` is set and the pass made partial
progress (`0 < len(remain) != len(tobesent)`), `retry` is reset to the
budget; `tobesent` becomes `remain`; the loop breaks when nothing
remains, else `retry -= 1`. -/

/-- The `retry`/`autostop` initialisation of `SndRcvHandler.__init__`:
returns the (retry, autostop) pair actually used by the loop. -/
def initRetry (retry : Int) : Int × Int :=
  if retry < 0 then (-retry, -retry) else (retry, 0)

/-- The `while retry >= 0` loop, counting the send passes performed.
`fuel` bounds the recursion (the Python loop is unbounded when every pass
makes progress); `none` means the fuel ran out before the loop exited. -/
def retryLoop {α : Type} (oracle : Nat → List α → List α) (autostop : Int) :
    Nat → Int → List α → Nat → Option Nat
  | 0, _, _, _ => none
  | fuel + 1, retry, tobesent, passes =>
      if 0 ≤ retry then
        let remain := oracle passes tobesent
        let retry2 := if autostop ≠ 0 ∧ remain.length > 0 ∧
            remain.length ≠ tobesent.length then autostop else retry
        if remain.length = 0 then some (passes + 1)
        else retryLoop oracle autostop fuel (retry2 - 1) remain (passes + 1)
      else some passes

/-- Counterexample to C5: with `retry = -1` (so `k = 1`) and no reply ever
received (the pass oracle answers nothing), the coordinator performs two
send passes, not exactly one. -/
theorem sndrcv_autostop_counterexample :
    initRetry (-1) = (1, 1) ∧
    retryLoop (fun _ (l : List Unit) => l) 1 10 1 [()] 0 = some 2 ∧
    ¬ retryLoop (fun _ (l : List Unit) => l) 1 10 1 [()] 0 = some 1 := by
  decide

theorem retryLoop_id_oracle {α : Type} (a : Int) (l : List α) (hl : l ≠ []) :
    ∀ (r fuel passes : Nat), r + 2 ≤ fuel →
      retryLoop (fun _ x => x) a fuel (r : Int) l passes
        = some (passes + r + 1) := by
  intro r
  induction r with
  | zero =>
      intro fuel passes hf
      match fuel, hf with
      | f + 1, hf =>
          rw [retryLoop]
          have hf1 : 1 ≤ f := by omega
          match f, hf1 with
          | f2 + 1, _ =>
              simp [hl, retryLoop]
  | succ r ih =>
      intro fuel passes hf
      match fuel, hf with
      | f + 1, hf =>
          rw [retryLoop]
          have hrec := ih f (passes + 1) (by omega)
          simp [hl]
          rw [if_pos (show (0 : Int) ≤ (r : Int) + 1 by omega), hrec]
          simp only [Option.some.injEq]
          omega

/-- C5 amended: `retry = -k` (k > 0) records `k` as the autostop budget
and treats `retry` as the positive `k` — but a run in which no stimulus is
ever answered performs exactly `k + 1` send passes (the initial pass plus
`k` retries), not exactly one; and the retry counter is reset to the
autostop budget exactly after a pass that made partial progress (some but
not all outstanding stimuli answered), which is what bounds the extra
passes after progress stops. -/
theorem sndrcv_autostop_amended (k : Nat) (hk : 0 < k) :
    initRetry (-(k : Int)) = ((k : Int), (k : Int)) ∧
    (∀ (α : Type) (l : List α) (fuel passes : Nat), l ≠ [] → k + 2 ≤ fuel →
      retryLoop (fun _ x => x) (k : Int) fuel (k : Int) l passes
        = some (passes + k + 1)) ∧
    (∀ (α : Type) (oracle : Nat → List α → List α) (fuel : Nat) (retry : Int)
        (tobesent : List α) (passes : Nat),
      0 ≤ retry →
      (oracle passes tobesent).length ≠ 0 →
      (oracle passes tobesent).length ≠ tobesent.length →
      retryLoop oracle (k : Int) (fuel + 1) retry tobesent passes
        = retryLoop oracle (k : Int) fuel ((k : Int) - 1)
            (oracle passes tobesent) (passes + 1)) := by
  refine ⟨?_, ?_, ?_⟩
  · have hneg : -(k : Int) < 0 := by omega
    rw [initRetry, if_pos hneg]
    simp
  · intro α l fuel passes hl hf
    exact retryLoop_id_oracle (k : Int) l hl k fuel passes hf
  · intro α oracle fuel retry tobesent passes h0 hlen hne
    rw [retryLoop, if_pos h0]
    have hcond : (k : Int) ≠ 0 ∧ (oracle passes tobesent).length > 0 ∧
        (oracle passes tobesent).length ≠ tobesent.length :=
      ⟨by omega, by omega, hne⟩
    rw [if_neg hlen, if_pos hcond]

/-- Witness for the amended C5 at `k = 2`: the budget is recorded, a
never-answered run of a one-element list performs 3 passes, and a partial
progress pass resets the counter to the budget. -/
theorem sndrcv_autostop_amended_witness :
    initRetry (-((2 : Nat) : Int)) = (((2 : Nat) : Int), ((2 : Nat) : Int)) ∧
    retryLoop (fun _ x => x) ((2 : Nat) : Int) 4 ((2 : Nat) : Int)
      [(0 : Nat)] 0 = some (0 + 2 + 1) ∧
    retryLoop (fun _ (_ : List Nat) => [1]) ((2 : Nat) : Int) 6 0 [1, 2] 0
      = retryLoop (fun _ (_ : List Nat) => [1]) ((2 : Nat) : Int) 5
          (((2 : Nat) : Int) - 1) [1] 1 :=
  ⟨(sndrcv_autostop_amended 2 (by decide)).1,
   (sndrcv_autostop_amended 2 (by decide)).2.1 Nat [0] 4 0 (by decide) (by decide),
   (sndrcv_autostop_amended 2 (by decide)).2.2 Nat (fun _ _ => [1]) 5 0 [1, 2] 0
     (by decide) (by decide) (by decide)⟩

/-! ### C6: `_FloodGenerator.__iter__` (src/scapy/sendrecv.py:887-923)

The generator body: `i = 0; while True: i += 1; j = 0;
if self.maxretries and i >= self.maxretries: return;
for p in self.tobesent: if self.stopevent.is_set(): return; j += 1; yield p;
if self.iterlen == 0: self.iterlen = j`.  `maxretries` is truthy only when
neither `None` nor `0`.  The stop event is modelled as the constant
`stopset` (the claim fixes it to never set); when set and the cycle is
nonempty the generator returns before the first yield of the cycle.
`fuel` bounds the outer loop (which is infinite when `maxretries` is
falsy); the result is the yielded packets together with the final
`iterlen`, or `none` when the fuel ran out. -/
/-- The `if self.maxretries and i >= self.maxretries: return` test of the
generator (Python truthiness: `None` and `0` are falsy). -/
def floodStop (maxretries : Option Nat) (i : Nat) : Bool :=
  match maxretries with
  | some k => decide (k ≠ 0) && decide (i ≥ k)
  | none => false

/-- The generator loop.  Each outer iteration: `i += 1`; return when
`floodStop maxretries i`; return before the first yield of the cycle when
the stop event is set and the cycle is nonempty; otherwise yield one full
cycle and update `iterlen` (`j` is the cycle length).  `fuel` bounds the
outer loop; the result is the yielded packets and the final `iterlen`,
`none` when the fuel ran out. -/
def floodRun {α : Type} (tobesent : List α) (maxretries : Option Nat)
    (stopset : Bool) : Nat → Nat → Nat → Option (List α × Nat)
  | 0, _, _ => none
  | fuel + 1, i, iterlen =>
      if floodStop maxretries (i + 1) then some ([], iterlen)
      else if stopset && !tobesent.isEmpty then some ([], iterlen)
      else
        (floodRun tobesent maxretries stopset fuel (i + 1)
            (if iterlen = 0 then tobesent.length else iterlen)).map
          (fun rf => (tobesent ++ rf.1, rf.2))

/-- Counterexample to C6: with `maxretries = 1` and the stop event never
set, the generator yields nothing at all (the check `i >= maxretries`
fires with `i = 1` before the first cycle), not one complete cycle, and
`iterlen` stays 0. -/
theorem floodgen_counterexample :
    floodRun [(0 : Nat), 1] (some 1) false 10 0 0 = some ([], 0) ∧
    ¬ floodRun [(0 : Nat), 1] (some 1) false 10 0 0 = some ([0, 1], 2) := by
  decide

theorem floodRun_cycles {α : Type} (tobesent : List α) (k : Nat) :
    ∀ (fuel i il : Nat), i < k → k ≤ i + fuel →
      floodRun tobesent (some k) false fuel i il
        = some ((List.replicate (k - 1 - i) tobesent).join,
            if k - 1 - i = 0 then il
            else if il = 0 then tobesent.length else il) := by
  intro fuel
  induction fuel with
  | zero => intro i il h1 h2; omega
  | succ f ih =>
      intro i il h1 h2
      rw [floodRun]
      by_cases hend : i + 1 ≥ k
      · have hc0 : k - 1 - i = 0 := by omega
        have hstop : floodStop (some k) (i + 1) = true := by
          have hk0 : k ≠ 0 := by omega
          simp [floodStop, hk0, hend]
        rw [if_pos hstop, hc0]
        simp
      · have hstop : floodStop (some k) (i + 1) = false := by
          simp [floodStop]
          omega
        rw [if_neg (by simp [hstop]), if_neg (by simp)]
        rw [ih (i + 1) (if il = 0 then tobesent.length else il)
          (by omega) (by omega)]
        rw [Option.map_some']
        have hrep : k - 1 - i = (k - 1 - (i + 1)) + 1 := by omega
        have hj : (List.replicate ((k - 1 - (i + 1)) + 1) tobesent).join
            = tobesent ++ (List.replicate (k - 1 - (i + 1)) tobesent).join := rfl
        rw [hrep, hj]
        simp only [Option.some.injEq, Prod.mk.injEq]
        refine ⟨trivial, ?_⟩
        by_cases hz : k - 1 - (i + 1) = 0
        · by_cases hil : il = 0 <;> simp [hz, hil]
        · by_cases hil : il = 0
          · by_cases hlen : tobesent.length = 0 <;> simp [hz, hil, hlen]
          · simp [hz, hil]

/-- C6 amended: with the stop event never set and `maxretries = k ≥ 1`,
the flood generator yields exactly `k - 1` complete cycles of the
iterable, in order (for `k = 1` it yields nothing), and after the first
complete cycle `iterlen` equals the number of elements of one cycle
(for `k = 1` it stays 0; for an empty iterable it equals the length 0). -/
theorem floodgen_amended {α : Type} (tobesent : List α) (k fuel : Nat)
    (hk : 1 ≤ k) (hf : k ≤ fuel) :
    floodRun tobesent (some k) false fuel 0 0
      = some ((List.replicate (k - 1) tobesent).join,
          if k - 1 = 0 then 0 else tobesent.length) := by
  have h := floodRun_cycles tobesent k fuel 0 0 (by omega) (by omega)
  simpa using h

/-- Witness for the amended C6: `maxretries = 3` over a two-element
iterable yields exactly two full cycles with `iterlen = 2`. -/
theorem floodgen_amended_witness :
    1 ≤ 3 ∧ 3 ≤ 3 ∧
    floodRun [(7 : Nat), 8] (some 3) false 3 0 0
      = some ((List.replicate (3 - 1) [7, 8]).join,
          if 3 - 1 = 0 then 0 else ([(7 : Nat), 8]).length) :=
  ⟨by decide, by decide, floodgen_amended [7, 8] 3 3 (by decide) (by decide)⟩

/-! ### C7: the bridge forward hook `prn_send` of `bridge_and_sniff`
(src/scapy/sendrecv.py:1488-1517)

`prn_send(pkt)`: `sendsock = peers[pkt.sniffed_on or ""]` (a `KeyError`
returns); if a transform is registered for `pkt.sniffed_on`, call it — an
exception inside the transform logs and returns (drop); if the result is
a `bool`, `False` returns (drop) and `True` keeps the original packet;
any non-bool result — *including Python `None`, which fails the
`isinstance(_newpkt, bool)` test* — becomes `newpkt`; finally
`sendsock.send(newpkt)` is called (its errors are only logged).  The model
records the send call made: `some (peer, argument)` where the argument is
`none` for the Python value `None`, or `none` when no send call happens. -/

/-- Value returned by a bridge transform: a Python bool, `None`, a
substitute packet, or an exception raised inside the transform. -/
inductive XfrmResult where
  | bool (b : Bool)
  | pyNone
  | pkt (p : Pkt)
  | exc
  deriving DecidableEq, Repr

/-- String-keyed dict lookup (`d[k]` / `k in d`). -/
def lookupStr {β : Type} : List (String × β) → String → Option β
  | [], _ => none
  | (k, v) :: rest, s => if k = s then some v else lookupStr rest s

/-- The `prn_send` hook.  Returns the `sendsock.send` call made, if any. -/
def prn_send (peers : List (String × Nat))
    (xfrms : List (String × (Pkt → XfrmResult)))
    (sniffed_on : Option String) (pkt : Pkt) : Option (Nat × Option Pkt) :=
  match lookupStr peers (sniffed_on.getD "") with
  | none => none
  | some sendsock =>
      match (match sniffed_on with
             | some lbl => lookupStr xfrms lbl
             | none => none) with
      | some xf =>
          match xf pkt with
          | XfrmResult.exc => none
          | XfrmResult.bool b => if b then some (sendsock, some pkt) else none
          | XfrmResult.pyNone => some (sendsock, none)
          | XfrmResult.pkt q => some (sendsock, some q)
      | none => some (sendsock, some pkt)

/-- C7: evaluation of `prn_send` on every transform outcome, at the
failing input in particular: a transform returning `True` forwards the
original packet and a returned packet is substituted, as claimed; but a
transform returning `None` is *not* dropped like `False` — the
`isinstance(_newpkt, bool)` test fails for `None`, so the code calls
`send(None)` on the peer socket (relying on the socket layer to reject
it), contradicting the function's own docstring ("If it returns False or
None, the packet is discarded"). -/
theorem prn_send_cases :
    prn_send [("a", 2)] [("a", fun _ => XfrmResult.bool true)]
      (some "a") ⟨0, []⟩ = some (2, some ⟨0, []⟩) ∧
    prn_send [("a", 2)] [("a", fun _ => XfrmResult.bool false)]
      (some "a") ⟨0, []⟩ = none ∧
    prn_send [("a", 2)] [("a", fun _ => XfrmResult.pkt ⟨1, []⟩)]
      (some "a") ⟨0, []⟩ = some (2, some ⟨1, []⟩) ∧
    prn_send [("a", 2)] [("a", fun _ => XfrmResult.exc)]
      (some "a") ⟨0, []⟩ = none ∧
    prn_send [("a", 2)] [("a", fun _ => XfrmResult.pyNone)]
      (some "a") ⟨0, []⟩ = some (2, none) :=
  ⟨rfl, rfl, rfl, rfl, rfl⟩

/-! ### C8: `__gen_send` (src/scapy/sendrecv.py:366-427)

`n = 0; if count is not None: loop = -count; elif not loop: loop = -1;
while loop: for p in x: s.send(p); n += 1; ...; if loop < 0: loop += 1`.
Each `while` iteration sends every packet of the source once, in order;
a negative `loop` counts up toward zero.  A positive `loop` never
terminates, so the loop takes a fuel bound (`none` = fuel ran out). -/

/-- The `while loop:` transmission loop of `__gen_send`, accumulating the
packets handed to `s.send` in order. -/
def gen_send_loop {α : Type} (x : List α) :
    Nat → Int → List α → Option (List α)
  | 0, loopv, sent => if loopv = 0 then some sent else none
  | fuel + 1, loopv, sent =>
      if loopv ≠ 0 then
        gen_send_loop x fuel (if loopv < 0 then loopv + 1 else loopv) (sent ++ x)
      else some sent

/-- `__gen_send` without the I/O: the `count`/`loop` normalisation
followed by the transmission loop; returns the sent packets and `n`. -/
def gen_send {α : Type} (x : List α) (loopv : Int) (count : Option Nat)
    (fuel : Nat) : Option (List α × Nat) :=
  (gen_send_loop x fuel
      (match count with
       | some c => -(c : Int)
       | none => if loopv = 0 then -1 else loopv) []).map
    (fun s => (s, s.length))

theorem gen_send_loop_neg {α : Type} (x : List α) :
    ∀ (m : Nat) (fuel : Nat) (sent : List α), m ≤ fuel →
      gen_send_loop x fuel (-(m : Int)) sent
        = some (sent ++ (List.replicate m x).join) := by
  intro m
  induction m with
  | zero =>
      intro fuel sent _
      cases fuel with
      | zero => simp [gen_send_loop]
      | succ f => simp [gen_send_loop]
  | succ m ih =>
      intro fuel sent hf
      match fuel, hf with
      | f + 1, hf =>
          rw [gen_send_loop]
          have hne : (-((m + 1 : Nat) : Int)) ≠ 0 := by
            push_cast
            omega
          have hlt : (-((m + 1 : Nat) : Int)) < 0 := by
            push_cast
            omega
          rw [if_pos hne, if_pos hlt]
          have hcast : (-((m + 1 : Nat) : Int)) + 1 = -(m : Int) := by
            push_cast
            ring
          rw [hcast, ih f (sent ++ x) (by omega)]
          simp [List.replicate_succ]

theorem length_join_replicate {α : Type} (x : List α) :
    ∀ n : Nat, ((List.replicate n x).join).length = n * x.length := by
  intro n
  induction n with
  | zero => simp
  | succ n ih =>
      simp [List.replicate_succ, ih]
      ring

/-- C8: in `__gen_send`, `count = N` overrides `loop` as `-N` and the
source is traversed exactly `N` times; `loop = 0` with no count traverses
it exactly once; `loop = -m` traverses it exactly `m` times; in every
traversal each packet of the source is sent exactly once, in source order
(the sent sequence is the source repeated), and `n` counts the sends. -/
theorem gen_send_traversals {α : Type} (x : List α) :
    (∀ (N fuel : Nat) (loopv : Int), N ≤ fuel →
      gen_send x loopv (some N) fuel
        = some ((List.replicate N x).join, N * x.length)) ∧
    (∀ fuel : Nat, 1 ≤ fuel →
      gen_send x 0 none fuel = some (x, x.length)) ∧
    (∀ m fuel : Nat, 1 ≤ m → m ≤ fuel →
      gen_send x (-(m : Int)) none fuel
        = some ((List.replicate m x).join, m * x.length)) := by
  refine ⟨?_, ?_, ?_⟩
  · intro N fuel loopv hf
    rw [gen_send, gen_send_loop_neg x N fuel [] hf]
    simp [length_join_replicate]
  · intro fuel hf
    have h2 := gen_send_loop_neg x 1 fuel [] hf
    rw [Nat.cast_one] at h2
    rw [gen_send]
    simp [h2, List.replicate_succ]
  · intro m fuel hm hf
    rw [gen_send]
    have hne : (-(m : Int)) ≠ 0 := by push_cast; omega
    have hz : (-(m : Int)) = 0 ↔ False := by simp; omega
    rw [if_neg (by push_cast; omega : ¬ (-(m : Int)) = 0)]
    rw [gen_send_loop_neg x m fuel [] hf]
    simp [length_join_replicate]

/-- Witness for C8 at a two-packet source: `count = 2` (with a stale
`loop = 5` overridden) sends the source twice; `loop = 0` sends it once;
`loop = -2` sends it twice; `n` matches in each case. -/
theorem gen_send_traversals_witness :
    gen_send [(1 : Nat), 2] 5 (some 2) 3
        = some ((List.replicate 2 [1, 2]).join, 2 * ([(1 : Nat), 2]).length) ∧
    gen_send [(1 : Nat), 2] 0 none 1 = some ([1, 2], ([(1 : Nat), 2]).length) ∧
    gen_send [(1 : Nat), 2] (-((2 : Nat) : Int)) none 2
        = some ((List.replicate 2 [1, 2]).join, 2 * ([(1 : Nat), 2]).length) :=
  ⟨(gen_send_traversals [1, 2]).1 2 3 5 (by decide),
   (gen_send_traversals [1, 2]).2.1 1 (by decide),
   (gen_send_traversals [1, 2]).2.2 2 2 (by decide) (by decide)⟩

/-! ### C9: `_parse_tcpreplay_result` (src/scapy/sendrecv.py:609-663)

The parser lowercases stdout, splits it into lines, and for each stripped
line and each entry of the `elements` table whose key prefixes the line,
builds a regex from the column types, runs `re.search`, and stores each
converted group under the name from the `multi` table (defaulting to the
element key); finally it stores `command` (the argv joined by spaces) and
`warnings` (the stripped stderr lines without the last).  `re.search` and
the `int()`/`float()` conversions are external hooks that may raise; list
indexing and group access may also raise.  Any exception in the body is
caught: in interactive mode it is logged (logging not modelled) and `{}`
is returned, otherwise it is re-raised.

Python strings are processed as their character lists (`chars` converts a
Lean string literal), with the `str.lower` / `str.strip` / `str.split` /
`str.startswith` / `str.join` operations defined below. -/

/-- Character list of a string literal. -/
def chars (s : String) : List Char := s.data

/-- Dict lookup for an arbitrary decidable key type. -/
def lookupKey {κ β : Type} [DecidableEq κ] : List (κ × β) → κ → Option β
  | [], _ => none
  | (k, v) :: rest, k2 => if k = k2 then some v else lookupKey rest k2

/-- Python dict assignment `d[k] = v`: overwrite in place or append. -/
def setKey {κ β : Type} [DecidableEq κ] : List (κ × β) → κ → β → List (κ × β)
  | [], k, v => [(k, v)]
  | (k2, v2) :: rest, k, v =>
      if k2 = k then (k2, v) :: rest else (k2, v2) :: setKey rest k v

/-- ASCII lowercasing of one character (`str.lower`). -/
def lowerChar (c : Char) : Char :=
  if 65 ≤ c.toNat ∧ c.toNat ≤ 90 then Char.ofNat (c.toNat + 32) else c

/-- `str.lower`. -/
def lowerStr (s : List Char) : List Char := s.map lowerChar

/-- Whitespace for `str.strip`. -/
def isWs (c : Char) : Bool :=
  c = ' ' || c = '\t' || c = '\n' || c = '\r'

/-- Drop leading whitespace. -/
def dropWs : List Char → List Char
  | [] => []
  | c :: cs => if isWs c then dropWs cs else c :: cs

/-- `str.strip()`: drop whitespace at both ends. -/
def stripStr (s : List Char) : List Char :=
  ((dropWs s).reverse |> dropWs).reverse

/-- `str.split(sep)` for a one-character separator. -/
def splitOnChar (sep : Char) : List Char → List (List Char)
  | [] => [[]]
  | c :: cs =>
      match splitOnChar sep cs with
      | [] => if c = sep then [[], []] else [[c]]
      | y :: ys => if c = sep then [] :: y :: ys else (c :: y) :: ys

/-- `str.startswith`. -/
def startsWithL : List Char → List Char → Bool
  | _, [] => true
  | [], _ :: _ => false
  | c :: cs, d :: ds => c = d && startsWithL cs ds

/-- `sep.join(parts)`. -/
def joinSep (sep : List Char) : List (List Char) → List Char
  | [] => []
  | [x] => x
  | x :: y :: ys => x ++ sep ++ joinSep sep (y :: ys)

/-- Numeric column types of the `elements` table. -/
inductive RType where
  | rint
  | rfloat
  deriving DecidableEq, Repr

/-- Values stored in the result map. -/
inductive RVal where
  | num (t : RType) (s : List Char)
  | str (s : List Char)
  | strs (l : List (List Char))
  deriving DecidableEq, Repr

/-- Exceptions the parser body can raise. -/
inductive PErr where
  | convErr
  | groupErr
  | indexErr
  deriving DecidableEq, Repr

/-- External hooks: `re.search` (regex, line ↦ optional group accessor)
and the `int()`/`float()` conversions (which may raise). -/
structure ParseHooks where
  search : List Char → List Char → Option (Nat → Option (List Char))
  convert : RType → List Char → Except Unit RVal

/-- The `elements` dict of `_parse_tcpreplay_result`, in source order. -/
def elementsTable : List (List Char × List RType) :=
  [(chars "actual", [RType.rint, RType.rint, RType.rfloat]),
   (chars "rated", [RType.rfloat, RType.rfloat, RType.rfloat]),
   (chars "flows", [RType.rint, RType.rfloat, RType.rint, RType.rint]),
   (chars "attempted", [RType.rint]),
   (chars "successful", [RType.rint]),
   (chars "failed", [RType.rint]),
   (chars "truncated", [RType.rint]),
   (chars "retried packets (eno", [RType.rint]),
   (chars "retried packets (eag", [RType.rint])]

/-- The `multi` dict of `_parse_tcpreplay_result`. -/
def multiTable : List (List Char × List (List Char)) :=
  [(chars "actual", [chars "packets", chars "bytes", chars "time"]),
   (chars "rated", [chars "bps", chars "mbps", chars "pps"]),
   (chars "flows",
     [chars "flows", chars "fps", chars "flow_packets", chars "non_flow"]),
   (chars "retried packets (eno", [chars "retried_enobufs"]),
   (chars "retried packets (eag", [chars "retried_eagain"])]

/-- `float_reg` of the source. -/
def float_reg : List Char := chars "([0-9]*\x5c.[0-9]+|[0-9]+)"

/-- `int_reg` of the source. -/
def int_reg : List Char := chars "([0-9]+)"

/-- `any_reg` of the source. -/
def any_reg : List Char := chars "[^0-9]*"

/-- The `r_types` map of the source. -/
def r_types (t : RType) : List Char :=
  match t with
  | RType.rint => int_reg
  | RType.rfloat => float_reg

/-- `regex = any_reg.join([r_types[x] for x in _types])`. -/
def regexFor (ts : List RType) : List Char :=
  joinSep any_reg (ts.map r_types)

/-- The `for i, typ in enumerate(_types)` loop: compute
`name = multi.get(elt, [elt])[i]` (IndexError possible), and when the
regex matched, store `typ(matches.group(i + 1))` under `name` (group
access and conversion may raise). -/
def procTypes (hooks : ParseHooks) (elt : List Char)
    (mtch : Option (Nat → Option (List Char))) :
    List (List Char × RVal) → List RType → Nat →
    Except PErr (List (List Char × RVal))
  | results, [], _ => Except.ok results
  | results, typ :: rest, i =>
      match ((lookupKey multiTable elt).getD [elt]).get? i with
      | none => Except.error PErr.indexErr
      | some name =>
          match mtch with
          | none => procTypes hooks elt mtch results rest (i + 1)
          | some groups =>
              match groups (i + 1) with
              | none => Except.error PErr.groupErr
              | some gs =>
                  match hooks.convert typ gs with
                  | Except.error _ => Except.error PErr.convErr
                  | Except.ok v =>
                      procTypes hooks elt mtch (setKey results name v)
                        rest (i + 1)

/-- The `for elt, _types in elements.items()` loop over one line. -/
def procElems (hooks : ParseHooks) (line : List Char) :
    List (List Char × RVal) → List (List Char × List RType) →
    Except PErr (List (List Char × RVal))
  | results, [] => Except.ok results
  | results, (elt, types) :: rest =>
      if startsWithL line elt then
        match procTypes hooks elt (hooks.search (regexFor types) line)
            results types 0 with
        | Except.error e => Except.error e
        | Except.ok r2 => procElems hooks line r2 rest
      else procElems hooks line results rest

/-- The `for line in stdout.split("\n")` loop (each line stripped). -/
def procLines (hooks : ParseHooks) :
    List (List Char × RVal) → List (List Char) →
    Except PErr (List (List Char × RVal))
  | results, [] => Except.ok results
  | results, line :: rest =>
      match procElems hooks (stripStr line) results elementsTable with
      | Except.error e => Except.error e
      | Except.ok r2 => procLines hooks r2 rest

/-- The `try` body of `_parse_tcpreplay_result`: parse the lowercased
stdout, then store `command` and `warnings`. -/
def parseBody (hooks : ParseHooks) (stdout_s stderr_s : List Char)
    (argv : List (List Char)) : Except PErr (List (List Char × RVal)) :=
  match procLines hooks [] (splitOnChar '\n' (lowerStr stdout_s)) with
  | Except.error e => Except.error e
  | Except.ok results =>
      Except.ok (setKey
        (setKey results (chars "command") (RVal.str (joinSep (chars " ") argv)))
        (chars "warnings")
        (RVal.strs ((splitOnChar '\n' (stripStr stderr_s)).dropLast)))

/-- `_parse_tcpreplay_result`: the `except` clause re-raises unless
`conf.interactive` is set, in which case it returns `{}`. -/
def parse_tcpreplay_result (interactive : Bool) (hooks : ParseHooks)
    (stdout_s stderr_s : List Char) (argv : List (List Char)) :
    Except PErr (List (List Char × RVal)) :=
  match parseBody hooks stdout_s stderr_s argv with
  | Except.ok r => Except.ok r
  | Except.error e =>
      if interactive then Except.ok [] else Except.error e

theorem mem_keys_setKey_self {κ β : Type} [DecidableEq κ]
    (t : List (κ × β)) (k : κ) (v : β) :
    k ∈ (setKey t k v).map Prod.fst := by
  induction t with
  | nil => simp [setKey]
  | cons e rest ih =>
      obtain ⟨k2, v2⟩ := e
      by_cases hk : k2 = k
      · simp [setKey, hk]
      · rw [setKey, if_neg hk]
        simp only [List.map_cons, List.mem_cons]
        exact Or.inr ih

theorem mem_keys_setKey_mono {κ β : Type} [DecidableEq κ]
    (t : List (κ × β)) (k k2 : κ) (v : β) (h : k2 ∈ t.map Prod.fst) :
    k2 ∈ (setKey t k v).map Prod.fst := by
  induction t with
  | nil => simp at h
  | cons e rest ih =>
      obtain ⟨k3, v3⟩ := e
      by_cases hk : k3 = k
      · rw [setKey, if_pos hk]
        simpa using h
      · rw [setKey, if_neg hk]
        simp only [List.map_cons, List.mem_cons] at h ⊢
        cases h with
        | inl h => exact Or.inl h
        | inr h => exact Or.inr (ih h)

/-- C9: when the parser body raises, interactive mode swallows the error
and yields the empty map while non-interactive mode re-raises it; when
the body succeeds, the result is returned unchanged and always contains
the keys `command` and `warnings`. -/
theorem parse_tcpreplay_result_policy
    (hooks : ParseHooks) (stdout_s stderr_s : List Char)
    (argv : List (List Char)) :
    (∀ e, parseBody hooks stdout_s stderr_s argv = Except.error e →
      parse_tcpreplay_result true hooks stdout_s stderr_s argv = Except.ok [] ∧
      parse_tcpreplay_result false hooks stdout_s stderr_s argv
        = Except.error e) ∧
    (∀ r, parseBody hooks stdout_s stderr_s argv = Except.ok r →
      parse_tcpreplay_result true hooks stdout_s stderr_s argv = Except.ok r ∧
      parse_tcpreplay_result false hooks stdout_s stderr_s argv = Except.ok r ∧
      chars "command" ∈ r.map Prod.fst ∧
      chars "warnings" ∈ r.map Prod.fst) := by
  constructor
  · intro e he
    constructor <;> simp [parse_tcpreplay_result, he]
  · intro r hr
    refine ⟨by simp [parse_tcpreplay_result, hr],
      by simp [parse_tcpreplay_result, hr], ?_, ?_⟩
    · rw [parseBody] at hr
      cases hpl : procLines hooks [] (splitOnChar '\n' (lowerStr stdout_s)) with
      | error e => rw [hpl] at hr; simp at hr
      | ok results =>
          rw [hpl] at hr
          simp at hr
          subst hr
          exact mem_keys_setKey_mono _ _ _ _ (mem_keys_setKey_self _ _ _)
    · rw [parseBody] at hr
      cases hpl : procLines hooks [] (splitOnChar '\n' (lowerStr stdout_s)) with
      | error e => rw [hpl] at hr; simp at hr
      | ok results =>
          rw [hpl] at hr
          simp at hr
          subst hr
          exact mem_keys_setKey_self _ _ _

/-- Witness for C9: a stdout line `actual` on which the conversion hook
raises is swallowed in interactive mode (empty map) and re-raised
otherwise; with no regex matches the body succeeds and its map carries
the `command` and `warnings` keys. -/
theorem parse_tcpreplay_result_policy_witness :
    (parseBody ⟨fun _ _ => some (fun _ => some (chars "z")),
        fun _ _ => Except.error ()⟩ (chars "actual") (chars "") []
      = Except.error PErr.convErr ∧
     parse_tcpreplay_result true ⟨fun _ _ => some (fun _ => some (chars "z")),
        fun _ _ => Except.error ()⟩ (chars "actual") (chars "") []
      = Except.ok [] ∧
     parse_tcpreplay_result false ⟨fun _ _ => some (fun _ => some (chars "z")),
        fun _ _ => Except.error ()⟩ (chars "actual") (chars "") []
      = Except.error PErr.convErr) ∧
    (parseBody ⟨fun _ _ => none, fun _ _ => Except.error ()⟩
        (chars "") (chars "") [chars "c"]
      = Except.ok [(chars "command", RVal.str (chars "c")),
          (chars "warnings", RVal.strs [])] ∧
     parse_tcpreplay_result true ⟨fun _ _ => none, fun _ _ => Except.error ()⟩
        (chars "") (chars "") [chars "c"]
      = Except.ok [(chars "command", RVal.str (chars "c")),
          (chars "warnings", RVal.strs [])] ∧
     chars "command" ∈ ([(chars "command", RVal.str (chars "c")),
          (chars "warnings", RVal.strs [])].map Prod.fst) ∧
     chars "warnings" ∈ ([(chars "command", RVal.str (chars "c")),
          (chars "warnings", RVal.strs [])].map Prod.fst)) := by
  constructor
  · refine ⟨rfl, ?_, ?_⟩
    · exact ((parse_tcpreplay_result_policy ⟨fun _ _ => some (fun _ => some (chars "z")),
        fun _ _ => Except.error ()⟩ (chars "actual") (chars "") []).1
        PErr.convErr rfl).1
    · exact ((parse_tcpreplay_result_policy ⟨fun _ _ => some (fun _ => some (chars "z")),
        fun _ _ => Except.error ()⟩ (chars "actual") (chars "") []).1
        PErr.convErr rfl).2
  · refine ⟨rfl, ?_, ?_, ?_⟩
    · exact ((parse_tcpreplay_result_policy ⟨fun _ _ => none,
        fun _ _ => Except.error ()⟩ (chars "") (chars "") [chars "c"]).2
        _ rfl).1
    · exact ((parse_tcpreplay_result_policy ⟨fun _ _ => none,
        fun _ _ => Except.error ()⟩ (chars "") (chars "") [chars "c"]).2
        _ rfl).2.2.1
    · exact ((parse_tcpreplay_result_policy ⟨fun _ _ => none,
        fun _ _ => Except.error ()⟩ (chars "") (chars "") [chars "c"]).2
        _ rfl).2.2.2

/-! ### C10: `AsyncSniffer.stop` (src/scapy/sendrecv.py:1399-1413)

`stop(join=True)`: when `self.running` is false the method immediately
raises `Scapy_Exception("Not running ! (check .running attr)")`; when
running it calls `self.stop_cb()` (installed by `_run`; modelled as a
state transformer), raises the unsupported-socket error if
`continue_sniff` is still true, and returns `self.results` after joining
when `join` is set (`None` otherwise).  The model returns the state after
`stop_cb` alongside the returned value; in the not-running branch the
exception propagates before any state access or mutation, so the sniffer
state is untouched. -/

/-- The `AsyncSniffer` attributes read and written by `stop`. -/
structure Sniffer where
  running : Bool
  continue_sniff : Bool
  results : Option (List Pkt)
  deriving DecidableEq, Repr

/-- `AsyncSniffer.stop(join)`. -/
def sniffer_stop (stop_cb : Sniffer → Sniffer) (sn : Sniffer) (join : Bool) :
    Except String (Sniffer × Option (List Pkt)) :=
  if sn.running then
    let sn2 := stop_cb sn
    if sn2.continue_sniff then
      Except.error "Unsupported (offline or unsupported socket)"
    else if join then Except.ok (sn2, sn2.results)
    else Except.ok (sn2, none)
  else Except.error "Not running ! (check .running attr)"

/-- C10: calling `stop` while the sniffer is not running does not silently
return: for every `stop_cb` and `join` flag it raises the
`Scapy_Exception` whose message is "Not running ! (check .running attr)",
and since the exception propagates before any mutation (the error branch
carries no updated state and never invokes `stop_cb`), the sniffer's
state (results, thread) is unchanged. -/
theorem asyncsniffer_stop_not_running (stop_cb : Sniffer → Sniffer)
    (sn : Sniffer) (join : Bool) (h : sn.running = false) :
    sniffer_stop stop_cb sn join
      = Except.error "Not running ! (check .running attr)" := by
  rw [sniffer_stop, if_neg (by simp [h])]

/-- Witness for C10: a freshly constructed (never started) sniffer. -/
theorem asyncsniffer_stop_not_running_witness :
    (⟨false, false, none⟩ : Sniffer).running = false ∧
    sniffer_stop id ⟨false, false, none⟩ true
      = Except.error "Not running ! (check .running attr)" :=
  ⟨rfl, asyncsniffer_stop_not_running id ⟨false, false, none⟩ true rfl⟩
